import Mathlib

/-!
Verification of the BorgVR GPU volume-rendering core.

This file gives a shallow embedding of the paging / addressing / miss-reporting
core of the renderer:

  - GPUHashtable.h : simpleHash, reportMissingBrick (the MissReportSet);
  - VolumeAtlas.h  : getBrickIndex, computeBrickCoords, getBrickCorners,
                     brickExit, infoToCoords, brickPoolCoords,
                     normCoordsToPoolCoords, getBrick, computeLOD;
  - ShaderTypes.h  : the BrickIDFlags constants and the LevelData record.

Modelling conventions:
  - 32-bit unsigned integers become Nat; the one place where 32-bit overflow
    matters for behaviour (the multiplicative hash) takes an explicit
    mod 4294967296.
  - Metal float3 values become triples of rationals (exact arithmetic model of
    the float computations).
  - The float-to-uint conversion truncates toward zero; an out-of-range
    (negative) value is modelled as saturating to 0.
  - The device hash-table buffer becomes a Lean list of Nat whose length plays
    the role of the HASHTABLE_SIZE constant; the atomic compare-and-swap of a
    single shader invocation is modelled as a sequential read-test-write.
  - The unbounded do-while loop in getBrick (LOD ascension on a cache miss)
    is modelled with explicit fuel; running out of fuel yields none.
-/

/-! ## GPUHashtable.h -/

/-- Empty-slot marker 0xFFFFFFFFu used by the GPU hash table. -/
def EMPTY_SLOT : Nat := 4294967295

/-- simpleHash from GPUHashtable.h: Knuth multiplicative hashing on a 32-bit
unsigned integer; the 32-bit wrap-around of the multiplication is explicit. -/
def simpleHash (value : Nat) : Nat := value * 2654435761 % 4294967296

/-- The linear-probing loop of reportMissingBrick. The first argument of the
recursion is the remaining number of probing attempts (MAX_PROBING_ATTEMPTS
minus the attempts already made), the second is the running probe counter i of
the source loop. The table size HASHTABLE_SIZE is the length of the list. -/
def probeLoop (brickIndex hashIndex : Nat) : Nat → Nat → List Nat → List Nat
  | 0, _, t => t
  | fuel + 1, i, t =>
    let slot := (hashIndex + i) % t.length
    if t.getD slot 0 = EMPTY_SLOT then t.set slot brickIndex
    else if t.getD slot 0 = brickIndex then t
    else probeLoop brickIndex hashIndex fuel (i + 1) t

/-- reportMissingBrick from GPUHashtable.h: insert a brick index into the
open-addressed miss-report set, probing at most maxProbes slots starting from
the hashed home slot. -/
def reportMissingBrick (maxProbes brickIndex : Nat) (t : List Nat) : List Nat :=
  probeLoop brickIndex (simpleHash brickIndex % t.length) maxProbes 0 t

/-- A sequence of reportMissingBrick calls, performed left to right. -/
def insertList (maxProbes : Nat) (t : List Nat) (l : List Nat) : List Nat :=
  l.foldl (fun acc i => reportMissingBrick maxProbes i acc) t

/-! ### Basic list-table helper lemmas -/

theorem getD_set_self {t : List Nat} {s v : Nat} (h : s < t.length) :
    (t.set s v).getD s 0 = v := by
  induction t generalizing s with
  | nil => simp at h
  | cons a t ih =>
    cases s with
    | zero => simp
    | succ s =>
      simp only [List.set_cons_succ, List.getD_cons_succ]
      exact ih (by simpa using h)

theorem getD_set_ne {t : List Nat} {s j v : Nat} (h : j ≠ s) :
    (t.set s v).getD j 0 = t.getD j 0 := by
  induction t generalizing s j with
  | nil => simp
  | cons a t ih =>
    cases s with
    | zero =>
      cases j with
      | zero => exact absurd rfl h
      | succ j => simp
    | succ s =>
      cases j with
      | zero => simp
      | succ j =>
        simp only [List.set_cons_succ, List.getD_cons_succ]
        exact ih (fun hc => h (by omega))

theorem getD_oob {t : List Nat} {j : Nat} (h : t.length ≤ j) : t.getD j 0 = 0 := by
  induction t generalizing j with
  | nil => simp
  | cons a t ih =>
    cases j with
    | zero => simp at h
    | succ j =>
      simp only [List.getD_cons_succ]
      exact ih (by simpa using h)

theorem getD_replicate {N j v : Nat} (h : j < N) :
    (List.replicate N v).getD j 0 = v := by
  induction N generalizing j with
  | zero => omega
  | succ N ih =>
    cases j with
    | zero => simp [List.replicate]
    | succ j => simpa [List.replicate] using ih (by omega)

theorem probeLoop_length (b h : Nat) :
    ∀ (f i : Nat) (t : List Nat), (probeLoop b h f i t).length = t.length := by
  intro f
  induction f with
  | zero => intro i t; rfl
  | succ f ih =>
    intro i t
    simp only [probeLoop]
    split
    · exact List.length_set t _ _
    · split
      · rfl
      · exact ih (i + 1) t

theorem reportMissingBrick_length (mP b : Nat) (t : List Nat) :
    (reportMissingBrick mP b t).length = t.length :=
  probeLoop_length b _ mP 0 t

theorem insertList_length (mP : Nat) :
    ∀ (l : List Nat) (t : List Nat), (insertList mP t l).length = t.length := by
  intro l
  induction l with
  | nil => intro t; rfl
  | cons i l ih =>
    intro t
    show (insertList mP (reportMissingBrick mP i t) l).length = t.length
    rw [ih, reportMissingBrick_length]

/-- Structure of a single probing call: either the table is returned unchanged,
or exactly one slot that held the empty marker now holds the inserted index. -/
theorem probeLoop_cases (b h : Nat) :
    ∀ (f i : Nat) (t : List Nat),
      probeLoop b h f i t = t ∨
        ∃ s, s < t.length ∧ t.getD s 0 = EMPTY_SLOT ∧
          probeLoop b h f i t = t.set s b := by
  intro f
  induction f with
  | zero => intro i t; left; rfl
  | succ f ih =>
    intro i t
    simp only [probeLoop]
    split
    · next hempty =>
      right
      refine ⟨(h + i) % t.length, ?_, hempty, rfl⟩
      by_contra hlen
      push_neg at hlen
      rw [getD_oob hlen] at hempty
      exact absurd hempty (by decide)
    · split
      · left; rfl
      · exact ih (i + 1) t

/-- If every probed slot is blocked by a foreign value, probing changes
nothing. -/
theorem probeLoop_blocked (b h : Nat) :
    ∀ (f i : Nat) (t : List Nat),
      (∀ d, d < f →
        t.getD ((h + i + d) % t.length) 0 ≠ EMPTY_SLOT ∧
        t.getD ((h + i + d) % t.length) 0 ≠ b) →
      probeLoop b h f i t = t := by
  intro f
  induction f with
  | zero => intro i t _; rfl
  | succ f ih =>
    intro i t hblock
    have h0 := hblock 0 (by omega)
    rw [Nat.add_zero] at h0
    simp only [probeLoop]
    rw [if_neg h0.1, if_neg h0.2]
    refine ih (i + 1) t (fun d hd => ?_)
    have e : h + (i + 1) + d = h + i + (d + 1) := by omega
    rw [e]
    exact hblock (d + 1) (by omega)

/-- If no probed slot holds the inserted index but some probed slot is empty,
probing writes the index into the first probed empty slot. -/
theorem probeLoop_success (b h : Nat) :
    ∀ (f i : Nat) (t : List Nat),
      (∀ d, d < f → t.getD ((h + i + d) % t.length) 0 ≠ b) →
      (∃ d, d < f ∧ t.getD ((h + i + d) % t.length) 0 = EMPTY_SLOT) →
      ∃ d, d < f ∧
        (∀ e, e < d →
          t.getD ((h + i + e) % t.length) 0 ≠ EMPTY_SLOT ∧
          t.getD ((h + i + e) % t.length) 0 ≠ b) ∧
        t.getD ((h + i + d) % t.length) 0 = EMPTY_SLOT ∧
        probeLoop b h f i t = t.set ((h + i + d) % t.length) b := by
  intro f
  induction f with
  | zero => intro i t _ hex; exact absurd hex (by simp)
  | succ f ih =>
    intro i t hnb hex
    by_cases h0 : t.getD ((h + i) % t.length) 0 = EMPTY_SLOT
    · refine ⟨0, by omega, fun e he => absurd he (by omega), ?_, ?_⟩
      · rw [Nat.add_zero]; exact h0
      · simp only [probeLoop]
        rw [if_pos h0, Nat.add_zero]
    · have hnb0 : t.getD ((h + i) % t.length) 0 ≠ b := by
        have := hnb 0 (by omega)
        rwa [Nat.add_zero] at this
      have hrec := ih (i + 1) t
        (fun d hd => by
          have e : h + (i + 1) + d = h + i + (d + 1) := by omega
          rw [e]; exact hnb (d + 1) (by omega))
        (by
          obtain ⟨d, hd, hde⟩ := hex
          cases d with
          | zero => rw [Nat.add_zero] at hde; exact absurd hde h0
          | succ d =>
            refine ⟨d, by omega, ?_⟩
            have e : h + (i + 1) + d = h + i + (d + 1) := by omega
            rw [e]; exact hde)
      obtain ⟨d, hd, hpre, hde, heq⟩ := hrec
      refine ⟨d + 1, by omega, ?_, ?_, ?_⟩
      · intro e he
        cases e with
        | zero => rw [Nat.add_zero]; exact ⟨h0, hnb0⟩
        | succ e =>
          have heq2 : h + i + (e + 1) = h + (i + 1) + e := by omega
          rw [heq2]
          exact hpre e (by omega)
      · have heq2 : h + i + (d + 1) = h + (i + 1) + d := by omega
        rw [heq2]; exact hde
      · simp only [probeLoop]
        rw [if_neg h0, if_neg hnb0]
        have heq2 : h + i + (d + 1) = h + (i + 1) + d := by omega
        rw [heq2]; exact heq

/-- The probe sequence of index b reaches a slot holding b, and every earlier
probed slot is blocked by a foreign value. This is the state a successful
reportMissingBrick call leaves behind for its index. -/
def foundIn (maxProbes b : Nat) (t : List Nat) : Prop :=
  ∃ k, k < maxProbes ∧
    t.getD ((simpleHash b % t.length + k) % t.length) 0 = b ∧
    ∀ j, j < k →
      t.getD ((simpleHash b % t.length + j) % t.length) 0 ≠ EMPTY_SLOT ∧
      t.getD ((simpleHash b % t.length + j) % t.length) 0 ≠ b

theorem probeLoop_found (b h : Nat) (hb : b ≠ EMPTY_SLOT) :
    ∀ (f i : Nat) (t : List Nat),
      (∃ k, k < f ∧ t.getD ((h + i + k) % t.length) 0 = b ∧
        ∀ j, j < k →
          t.getD ((h + i + j) % t.length) 0 ≠ EMPTY_SLOT ∧
          t.getD ((h + i + j) % t.length) 0 ≠ b) →
      probeLoop b h f i t = t := by
  intro f
  induction f with
  | zero => intro i t hex; exact absurd hex (by simp)
  | succ f ih =>
    intro i t hex
    obtain ⟨k, hk, hkb, hpre⟩ := hex
    simp only [probeLoop]
    cases k with
    | zero =>
      rw [Nat.add_zero] at hkb
      rw [if_neg (by rw [hkb]; exact hb), if_pos hkb]
    | succ k =>
      have h0 := hpre 0 (by omega)
      rw [Nat.add_zero] at h0
      rw [if_neg h0.1, if_neg h0.2]
      refine ih (i + 1) t ⟨k, by omega, ?_, ?_⟩
      · have e : h + (i + 1) + k = h + i + (k + 1) := by omega
        rw [e]; exact hkb
      · intro j hj
        have e : h + (i + 1) + j = h + i + (j + 1) := by omega
        rw [e]; exact hpre (j + 1) (by omega)

/-- An index that its probe sequence already finds is re-inserted without any
change to the table. -/
theorem reportMissingBrick_found (mP b : Nat) (t : List Nat)
    (hb : b ≠ EMPTY_SLOT) (hf : foundIn mP b t) :
    reportMissingBrick mP b t = t := by
  obtain ⟨k, hk, hkb, hpre⟩ := hf
  exact probeLoop_found b _ hb mP 0 t
    ⟨k, hk, by simpa using hkb, fun j hj => by simpa using hpre j hj⟩

/-- A successful insert establishes foundIn for the inserted index. -/
theorem foundIn_of_insert (mP b : Nat) (t : List Nat)
    (hnb : ∀ d, d < mP →
      t.getD ((simpleHash b % t.length + d) % t.length) 0 ≠ b)
    (hex : ∃ d, d < mP ∧
      t.getD ((simpleHash b % t.length + d) % t.length) 0 = EMPTY_SLOT) :
    foundIn mP b (reportMissingBrick mP b t) ∧
      ∃ s, s < t.length ∧ t.getD s 0 = EMPTY_SLOT ∧
        reportMissingBrick mP b t = t.set s b := by
  obtain ⟨d, hd, hpre, hde, heq⟩ := probeLoop_success b (simpleHash b % t.length)
    mP 0 t (fun e he => by simpa using hnb e he)
    (by obtain ⟨e, he, hee⟩ := hex; exact ⟨e, he, by simpa using hee⟩)
  rw [Nat.add_zero] at hde heq
  simp only [Nat.add_zero] at hpre
  set s := (simpleHash b % t.length + d) % t.length with hs
  have hslen : s < t.length := by
    by_contra hc
    push_neg at hc
    rw [getD_oob hc] at hde
    exact absurd hde (by decide)
  have hlen2 : (t.set s b).length = t.length := List.length_set t s b
  have heqR : reportMissingBrick mP b t = t.set s b := heq
  refine ⟨⟨d, hd, ?_, ?_⟩, s, hslen, hde, heqR⟩
  · rw [heqR, hlen2, ← hs]
    exact getD_set_self hslen
  · intro j hj
    have hne : (simpleHash b % t.length + j) % t.length ≠ s := by
      intro hc
      have := hpre j hj
      rw [hc] at this
      exact this.1 hde
    rw [heqR, hlen2, getD_set_ne hne]
    exact hpre j hj

/-- foundIn is preserved by any later insert: inserts only turn empty slots
into occupied ones and never touch occupied slots. -/
theorem foundIn_mono (mP mP2 b j : Nat) (t : List Nat) (hb : b ≠ EMPTY_SLOT)
    (hf : foundIn mP b t) : foundIn mP b (reportMissingBrick mP2 j t) := by
  rcases probeLoop_cases j (simpleHash j % t.length) mP2 0 t with hsame | ⟨s, hs, hse, heq⟩
  · have hsameR : reportMissingBrick mP2 j t = t := hsame
    rw [hsameR]; exact hf
  · have heqR : reportMissingBrick mP2 j t = t.set s j := heq
    rw [heqR]
    obtain ⟨k, hk, hkb, hpre⟩ := hf
    have hlen2 : (t.set s j).length = t.length := List.length_set t s j
    refine ⟨k, hk, ?_, ?_⟩
    · rw [hlen2]
      have hne : (simpleHash b % t.length + k) % t.length ≠ s := by
        intro hc
        rw [hc] at hkb
        rw [hse] at hkb
        exact hb hkb.symm
      rw [getD_set_ne hne]
      exact hkb
    · intro j2 hj2
      rw [hlen2]
      have hold := hpre j2 hj2
      have hne : (simpleHash b % t.length + j2) % t.length ≠ s := by
        intro hc
        rw [hc] at hold
        exact hold.1 hse
      rw [getD_set_ne hne]
      exact hold

/-- C6: if every one of the maxProbes probed slots (home slot plus linear
offsets, all taken modulo the table size) holds a value that is neither the
empty marker nor the inserted index, reportMissingBrick returns with the table
completely unchanged: the insert is dropped silently. -/
theorem report_blocked_drops_silently (mP idx : Nat) (t : List Nat)
    (hblock : ∀ d, d < mP →
      t.getD ((simpleHash idx % t.length + d) % t.length) 0 ≠ EMPTY_SLOT ∧
      t.getD ((simpleHash idx % t.length + d) % t.length) 0 ≠ idx) :
    reportMissingBrick mP idx t = t :=
  probeLoop_blocked idx (simpleHash idx % t.length) mP 0 t
    (fun d hd => by simpa using hblock d hd)

theorem report_blocked_drops_silently_witness :
    (∀ d, d < 3 →
      ([1, 2] : List Nat).getD
        ((simpleHash 5 % ([1, 2] : List Nat).length + d) % ([1, 2] : List Nat).length) 0
          ≠ EMPTY_SLOT ∧
      ([1, 2] : List Nat).getD
        ((simpleHash 5 % ([1, 2] : List Nat).length + d) % ([1, 2] : List Nat).length) 0
          ≠ 5) ∧
    reportMissingBrick 3 5 [1, 2] = [1, 2] :=
  ⟨by decide, report_blocked_drops_silently 3 5 [1, 2] (by decide)⟩

/-- C10: reportMissingBrick never overwrites an occupied slot. Every slot that
holds a non-empty value before the call holds the same value afterwards, and
the only possible transition is a single slot going from the empty marker to
the inserted index. -/
theorem report_never_overwrites (mP idx : Nat) (t : List Nat) :
    (∀ j, j < t.length → t.getD j 0 ≠ EMPTY_SLOT →
      (reportMissingBrick mP idx t).getD j 0 = t.getD j 0) ∧
    (reportMissingBrick mP idx t = t ∨
      ∃ s, s < t.length ∧ t.getD s 0 = EMPTY_SLOT ∧
        reportMissingBrick mP idx t = t.set s idx) := by
  have hc := probeLoop_cases idx (simpleHash idx % t.length) mP 0 t
  constructor
  · intro j _ hne
    rcases hc with hsame | ⟨s, _, hse, heq⟩
    · have h2 : reportMissingBrick mP idx t = t := hsame
      rw [h2]
    · have h2 : reportMissingBrick mP idx t = t.set s idx := heq
      rw [h2]
      exact getD_set_ne (fun hc2 => hne (hc2 ▸ hse))
  · rcases hc with hsame | ⟨s, hs, hse, heq⟩
    · left; exact hsame
    · right; exact ⟨s, hs, hse, heq⟩

theorem report_never_overwrites_witness :
    (∀ j, j < ([5, EMPTY_SLOT] : List Nat).length →
      ([5, EMPTY_SLOT] : List Nat).getD j 0 ≠ EMPTY_SLOT →
      (reportMissingBrick 3 7 [5, EMPTY_SLOT]).getD j 0 =
        ([5, EMPTY_SLOT] : List Nat).getD j 0) ∧
    (reportMissingBrick 3 7 [5, EMPTY_SLOT] = [5, EMPTY_SLOT] ∨
      ∃ s, s < ([5, EMPTY_SLOT] : List Nat).length ∧
        ([5, EMPTY_SLOT] : List Nat).getD s 0 = EMPTY_SLOT ∧
        reportMissingBrick 3 7 [5, EMPTY_SLOT] = ([5, EMPTY_SLOT] : List Nat).set s 7) :=
  report_never_overwrites 3 7 [5, EMPTY_SLOT]

/-- The index occupies at most one slot of the table. -/
def atMostOnce (i : Nat) (t : List Nat) : Prop :=
  ∀ j1 j2, j1 < t.length → j2 < t.length →
    t.getD j1 0 = i → t.getD j2 0 = i → j1 = j2

/-- The index occupies some slot of the table. -/
def presentIn (i : Nat) (t : List Nat) : Prop :=
  ∃ j, j < t.length ∧ t.getD j 0 = i

/-- Trichotomy of a probing window: either every probed slot is blocked by a
foreign value, or there is a first probed slot holding the empty marker or the
index, with all earlier probed slots blocked. -/
theorem probe_window_classify (mP b : Nat) (t : List Nat) :
    (∀ d, d < mP →
      t.getD ((simpleHash b % t.length + d) % t.length) 0 ≠ EMPTY_SLOT ∧
      t.getD ((simpleHash b % t.length + d) % t.length) 0 ≠ b) ∨
    ∃ d, d < mP ∧
      (t.getD ((simpleHash b % t.length + d) % t.length) 0 = EMPTY_SLOT ∨
       t.getD ((simpleHash b % t.length + d) % t.length) 0 = b) ∧
      ∀ j, j < d →
        t.getD ((simpleHash b % t.length + j) % t.length) 0 ≠ EMPTY_SLOT ∧
        t.getD ((simpleHash b % t.length + j) % t.length) 0 ≠ b := by
  induction mP with
  | zero => left; intro d hd; omega
  | succ mP ih =>
    rcases ih with hall | ⟨d, hd, hspec, hpre⟩
    · by_cases hlast : t.getD ((simpleHash b % t.length + mP) % t.length) 0 = EMPTY_SLOT ∨
          t.getD ((simpleHash b % t.length + mP) % t.length) 0 = b
      · right
        exact ⟨mP, by omega, hlast, fun j hj => hall j hj⟩
      · left
        intro d hd
        rcases Nat.lt_or_ge d mP with h | h
        · exact hall d h
        · have hdm : d = mP := by omega
          subst hdm
          push_neg at hlast
          exact hlast
    · right
      exact ⟨d, by omega, hspec, hpre⟩

/-- Re-inserting an index into a table where presence implies being found by
the probe sequence either changes nothing, or the index was absent and lands
in a single previously-empty slot, found afterwards. -/
theorem report_self_analysis (mP i : Nat) (hi : i ≠ EMPTY_SLOT) (t : List Nat)
    (h2 : presentIn i t → foundIn mP i t) :
    reportMissingBrick mP i t = t ∨
    (¬ presentIn i t ∧ ∃ s, s < t.length ∧ t.getD s 0 = EMPTY_SLOT ∧
      reportMissingBrick mP i t = t.set s i ∧
      foundIn mP i (reportMissingBrick mP i t)) := by
  rcases probe_window_classify mP i t with hall | ⟨d, hd, hspec, hpre⟩
  · left
    exact probeLoop_blocked i (simpleHash i % t.length) mP 0 t
      (fun e he => by simpa using hall e he)
  · rcases hspec with hE | hI
    · right
      have hnp : ¬ presentIn i t := by
        intro hp
        obtain ⟨k, hk, hkv, hkpre⟩ := h2 hp
        rcases Nat.lt_trichotomy k d with h | h | h
        · exact (hpre k h).2 hkv
        · rw [h] at hkv
          rw [hkv] at hE
          exact hi hE
        · exact (hkpre d h).1 hE
      have hlenpos : 0 < t.length := by
        by_contra hc
        push_neg at hc
        rw [getD_oob (by omega)] at hE
        exact absurd hE (by decide)
      have hnb : ∀ e, e < mP →
          t.getD ((simpleHash i % t.length + e) % t.length) 0 ≠ i :=
        fun e _ hc => hnp ⟨_, Nat.mod_lt _ hlenpos, hc⟩
      obtain ⟨hfound, s, hs, hsE, heq⟩ := foundIn_of_insert mP i t hnb ⟨d, hd, hE⟩
      exact ⟨hnp, s, hs, hsE, heq, hfound⟩
    · left
      exact reportMissingBrick_found mP i t hi ⟨d, hd, hI, hpre⟩

/-- An insert of any index preserves, for a fixed index i, that i occupies at
most one slot and that presence of i implies being found by the probe
sequence of i. -/
theorem clean_preserved (mP v i : Nat) (hi : i ≠ EMPTY_SLOT) (t : List Nat)
    (h1 : atMostOnce i t) (h2 : presentIn i t → foundIn mP i t) :
    atMostOnce i (reportMissingBrick mP v t) ∧
    (presentIn i (reportMissingBrick mP v t) →
      foundIn mP i (reportMissingBrick mP v t)) := by
  by_cases hvi : v = i
  · rw [hvi]
    rcases report_self_analysis mP i hi t h2 with hsame | ⟨hnp, s, hs, _, heq, hfound⟩
    · rw [hsame]
      exact ⟨h1, h2⟩
    · constructor
      · rw [heq]
        intro j1 j2 hj1 hj2 hv1 hv2
        rw [List.length_set] at hj1 hj2
        by_cases h1s : j1 = s
        · by_cases h2s : j2 = s
          · rw [h1s, h2s]
          · rw [getD_set_ne h2s] at hv2
            exact absurd ⟨j2, hj2, hv2⟩ hnp
        · rw [getD_set_ne h1s] at hv1
          exact absurd ⟨j1, hj1, hv1⟩ hnp
      · intro _
        exact hfound
  · rcases probeLoop_cases v (simpleHash v % t.length) mP 0 t with hsame | ⟨s, hs, hsE, heq⟩
    · have hsameR : reportMissingBrick mP v t = t := hsame
      rw [hsameR]
      exact ⟨h1, h2⟩
    · have heqR : reportMissingBrick mP v t = t.set s v := heq
      constructor
      · rw [heqR]
        intro j1 j2 hj1 hj2 hv1 hv2
        rw [List.length_set] at hj1 hj2
        have h1s : j1 ≠ s := by
          intro hc
          rw [hc, getD_set_self hs] at hv1
          exact hvi hv1
        have h2s : j2 ≠ s := by
          intro hc
          rw [hc, getD_set_self hs] at hv2
          exact hvi hv2
        rw [getD_set_ne h1s] at hv1
        rw [getD_set_ne h2s] at hv2
        exact h1 j1 j2 hj1 hj2 hv1 hv2
      · intro hp
        rw [heqR] at hp
        obtain ⟨j, hj, hjv⟩ := hp
        rw [List.length_set] at hj
        have hjs : j ≠ s := by
          intro hc
          rw [hc, getD_set_self hs] at hjv
          exact hvi hjv
        rw [getD_set_ne hjs] at hjv
        exact foundIn_mono mP mP i v t hi (h2 ⟨j, hj, hjv⟩)

/-- An insert of any index keeps a non-marker index present. -/
theorem presentIn_preserved (mP v i : Nat) (hi : i ≠ EMPTY_SLOT) (t : List Nat)
    (hp : presentIn i t) : presentIn i (reportMissingBrick mP v t) := by
  rcases probeLoop_cases v (simpleHash v % t.length) mP 0 t with hsame | ⟨s, hs, hsE, heq⟩
  · have hsameR : reportMissingBrick mP v t = t := hsame
    rw [hsameR]
    exact hp
  · have heqR : reportMissingBrick mP v t = t.set s v := heq
    rw [heqR]
    obtain ⟨j, hj, hjv⟩ := hp
    have hjs : j ≠ s := by
      intro hc
      rw [hc, hsE] at hjv
      exact hi hjv.symm
    refine ⟨j, ?_, ?_⟩
    · rw [List.length_set]
      exact hj
    · rw [getD_set_ne hjs]
      exact hjv

theorem insertList_clean (mP i : Nat) (hi : i ≠ EMPTY_SLOT) :
    ∀ (l : List Nat) (t : List Nat),
      atMostOnce i t → (presentIn i t → foundIn mP i t) →
      atMostOnce i (insertList mP t l) ∧
        (presentIn i (insertList mP t l) → foundIn mP i (insertList mP t l)) := by
  intro l
  induction l with
  | nil => intro t h1 h2; exact ⟨h1, h2⟩
  | cons v l ih =>
    intro t h1 h2
    have hstep := clean_preserved mP v i hi t h1 h2
    exact ih (reportMissingBrick mP v t) hstep.1 hstep.2

theorem insertList_presentIn (mP i : Nat) (hi : i ≠ EMPTY_SLOT) :
    ∀ (l : List Nat) (t : List Nat),
      presentIn i t → presentIn i (insertList mP t l) := by
  intro l
  induction l with
  | nil => intro t hp; exact hp
  | cons v l ih =>
    intro t hp
    exact ih (reportMissingBrick mP v t) (presentIn_preserved mP v i hi t hp)

/-- The state just after a successful insert of i into a table where i
occupies at most one slot and presence implies being found: i occupies at most
one slot, is present, and is found by its probe sequence. The success
hypothesis says the probing loop did not drop the insert: some probed slot of
the pre-state held the empty marker or i itself. -/
theorem report_success_state (mP i : Nat) (hi : i ≠ EMPTY_SLOT) (t : List Nat)
    (hlenpos : 0 < t.length)
    (h1 : atMostOnce i t) (h2 : presentIn i t → foundIn mP i t)
    (hsucc : ∃ d, d < mP ∧
      (t.getD ((simpleHash i % t.length + d) % t.length) 0 = EMPTY_SLOT ∨
       t.getD ((simpleHash i % t.length + d) % t.length) 0 = i)) :
    atMostOnce i (reportMissingBrick mP i t) ∧
    presentIn i (reportMissingBrick mP i t) ∧
    foundIn mP i (reportMissingBrick mP i t) := by
  rcases probe_window_classify mP i t with hall | ⟨d, hd, hspec, hpre⟩
  · obtain ⟨e, he, hev⟩ := hsucc
    rcases hev with h | h
    · exact absurd h (hall e he).1
    · exact absurd h (hall e he).2
  · rcases hspec with hE | hI
    · have hnp : ¬ presentIn i t := by
        intro hp
        obtain ⟨k, hk, hkv, hkpre⟩ := h2 hp
        rcases Nat.lt_trichotomy k d with h | h | h
        · exact (hpre k h).2 hkv
        · rw [h] at hkv
          rw [hkv] at hE
          exact hi hE
        · exact (hkpre d h).1 hE
      have hnb : ∀ e, e < mP →
          t.getD ((simpleHash i % t.length + e) % t.length) 0 ≠ i :=
        fun e _ hc => hnp ⟨_, Nat.mod_lt _ hlenpos, hc⟩
      obtain ⟨hfound, s, hs, hsE, heq⟩ := foundIn_of_insert mP i t hnb ⟨d, hd, hE⟩
      refine ⟨?_, ?_, hfound⟩
      · rw [heq]
        intro j1 j2 hj1 hj2 hv1 hv2
        rw [List.length_set] at hj1 hj2
        by_cases h1s : j1 = s
        · by_cases h2s : j2 = s
          · rw [h1s, h2s]
          · rw [getD_set_ne h2s] at hv2
            exact absurd ⟨j2, hj2, hv2⟩ hnp
        · rw [getD_set_ne h1s] at hv1
          exact absurd ⟨j1, hj1, hv1⟩ hnp
      · refine ⟨s, ?_, ?_⟩
        · rw [heq, List.length_set]
          exact hs
        · rw [heq]
          exact getD_set_self hs
    · have hF : foundIn mP i t := ⟨d, hd, hI, hpre⟩
      have hsame := reportMissingBrick_found mP i t hi hF
      rw [hsame]
      exact ⟨h1, ⟨_, Nat.mod_lt _ hlenpos, hI⟩, hF⟩

/-- C5: insertion into the MissReportSet is idempotent. For every table state
reachable by a sequence of inserts from the initially all-marker table (any
prefix history l1, then a successful insert of i, then any further history
l2), re-inserting i leaves the table unchanged, and the table holds i in
exactly one slot. The success hypothesis states that the insert call of i was
not dropped: at that point some probed slot held the empty marker or held i
already. -/
theorem report_idempotent_single_occurrence (N mP i : Nat) (l1 l2 : List Nat)
    (hN : 0 < N) (hi : i ≠ EMPTY_SLOT)
    (hsucc : ∃ d, d < mP ∧
      ((insertList mP (List.replicate N EMPTY_SLOT) l1).getD
          ((simpleHash i % (insertList mP (List.replicate N EMPTY_SLOT) l1).length + d) %
            (insertList mP (List.replicate N EMPTY_SLOT) l1).length) 0 = EMPTY_SLOT ∨
       (insertList mP (List.replicate N EMPTY_SLOT) l1).getD
          ((simpleHash i % (insertList mP (List.replicate N EMPTY_SLOT) l1).length + d) %
            (insertList mP (List.replicate N EMPTY_SLOT) l1).length) 0 = i)) :
    reportMissingBrick mP i (insertList mP
        (reportMissingBrick mP i (insertList mP (List.replicate N EMPTY_SLOT) l1)) l2) =
      insertList mP
        (reportMissingBrick mP i (insertList mP (List.replicate N EMPTY_SLOT) l1)) l2 ∧
    ∃! j, j < N ∧
      (insertList mP
        (reportMissingBrick mP i (insertList mP (List.replicate N EMPTY_SLOT) l1)) l2).getD
        j 0 = i := by
  have hlen0 : (List.replicate N EMPTY_SLOT).length = N :=
    List.length_replicate N EMPTY_SLOT
  have hlen1 : (insertList mP (List.replicate N EMPTY_SLOT) l1).length = N := by
    rw [insertList_length mP l1 (List.replicate N EMPTY_SLOT), hlen0]
  have hclean0A : atMostOnce i (List.replicate N EMPTY_SLOT) := by
    intro j1 j2 hj1 hj2 hv1 hv2
    rw [hlen0] at hj1
    rw [getD_replicate hj1] at hv1
    exact absurd hv1.symm hi
  have hclean0B : presentIn i (List.replicate N EMPTY_SLOT) →
      foundIn mP i (List.replicate N EMPTY_SLOT) := by
    intro hp
    obtain ⟨j, hj, hjv⟩ := hp
    rw [hlen0] at hj
    rw [getD_replicate hj] at hjv
    exact absurd hjv.symm hi
  obtain ⟨h1A, h1B⟩ := insertList_clean mP i hi l1 (List.replicate N EMPTY_SLOT)
    hclean0A hclean0B
  obtain ⟨h2A, h2P, h2F⟩ := report_success_state mP i hi
    (insertList mP (List.replicate N EMPTY_SLOT) l1) (by omega) h1A h1B hsucc
  obtain ⟨h3A, h3B⟩ := insertList_clean mP i hi l2
    (reportMissingBrick mP i (insertList mP (List.replicate N EMPTY_SLOT) l1)) h2A
    (fun _ => h2F)
  have h3P := insertList_presentIn mP i hi l2
    (reportMissingBrick mP i (insertList mP (List.replicate N EMPTY_SLOT) l1)) h2P
  have hlen3 : (insertList mP
      (reportMissingBrick mP i (insertList mP (List.replicate N EMPTY_SLOT) l1)) l2).length
      = N := by
    rw [insertList_length mP l2
      (reportMissingBrick mP i (insertList mP (List.replicate N EMPTY_SLOT) l1)),
      reportMissingBrick_length, hlen1]
  constructor
  · exact reportMissingBrick_found mP i _ hi (h3B h3P)
  · obtain ⟨j, hj, hjv⟩ := h3P
    refine ⟨j, ⟨by rw [← hlen3]; exact hj, hjv⟩, ?_⟩
    intro y hy
    exact h3A y j (by rw [hlen3]; exact hy.1) hj hy.2 hjv

theorem report_idempotent_single_occurrence_witness :
    0 < 4 ∧ (4 : Nat) ≠ EMPTY_SLOT ∧
    (∃ d, d < 2 ∧
      ((insertList 2 (List.replicate 4 EMPTY_SLOT) [8]).getD
          ((simpleHash 4 % (insertList 2 (List.replicate 4 EMPTY_SLOT) [8]).length + d) %
            (insertList 2 (List.replicate 4 EMPTY_SLOT) [8]).length) 0 = EMPTY_SLOT ∨
       (insertList 2 (List.replicate 4 EMPTY_SLOT) [8]).getD
          ((simpleHash 4 % (insertList 2 (List.replicate 4 EMPTY_SLOT) [8]).length + d) %
            (insertList 2 (List.replicate 4 EMPTY_SLOT) [8]).length) 0 = 4)) ∧
    (reportMissingBrick 2 4 (insertList 2
        (reportMissingBrick 2 4 (insertList 2 (List.replicate 4 EMPTY_SLOT) [8])) [4, 8]) =
      insertList 2
        (reportMissingBrick 2 4 (insertList 2 (List.replicate 4 EMPTY_SLOT) [8])) [4, 8] ∧
    ∃! j, j < 4 ∧
      (insertList 2
        (reportMissingBrick 2 4 (insertList 2 (List.replicate 4 EMPTY_SLOT) [8])) [4, 8]).getD
        j 0 = 4) :=
  ⟨by decide, by decide, ⟨1, by decide, Or.inl (by decide)⟩,
    report_idempotent_single_occurrence 4 2 4 [8] [4, 8] (by decide) (by decide)
      ⟨1, by decide, Or.inl (by decide)⟩⟩

theorem add_mod_inj {N a d1 d2 : Nat} (h1 : d1 < N) (h2 : d2 < N)
    (h : (a + d1) % N = (a + d2) % N) : d1 = d2 := by
  have hN : 0 < N := by omega
  have hr : a % N < N := Nat.mod_lt a hN
  have key : ∀ d : Nat, d < N →
      (a + d) % N = if a % N + d < N then a % N + d else a % N + d - N := by
    intro d hd
    rw [Nat.add_mod a d, Nat.mod_eq_of_lt hd]
    by_cases hc : a % N + d < N
    · rw [if_pos hc, Nat.mod_eq_of_lt hc]
    · rw [if_neg hc, Nat.mod_eq_sub_mod (by omega)]
      exact Nat.mod_eq_of_lt (by omega)
  rw [key d1 h1, key d2 h2] at h
  split_ifs at h <;> omega

/-- Pigeonhole argument: if the table holds only empty slots and values of a
duplicate-free list S, each value of S in exactly one slot, and a probing
window is longer than S, then the window meets an empty slot. -/
theorem window_has_empty (t S : List Nat) (base K N : Nat)
    (hlen : t.length = N) (hK : K ≤ N)
    (hvals : ∀ j, j < N → t.getD j 0 = EMPTY_SLOT ∨ t.getD j 0 ∈ S)
    (huniq : ∀ v, v ∈ S → ∀ j1 j2, j1 < N → j2 < N →
      t.getD j1 0 = v → t.getD j2 0 = v → j1 = j2)
    (hnd : S.Nodup) (hlt : S.length < K) :
    ∃ d, d < K ∧ t.getD ((base + d) % N) 0 = EMPTY_SLOT := by
  subst hlen
  by_contra hcon
  push_neg at hcon
  have hN0 : 0 < t.length := by omega
  have hmem : ∀ d, d < K → t.getD ((base + d) % t.length) 0 ∈ S := by
    intro d hd
    rcases hvals _ (Nat.mod_lt _ hN0) with h1 | h1
    · exact absurd h1 (hcon d hd)
    · exact h1
  have hFcard : ((Finset.range K).image (fun d => (base + d) % t.length)).card = K := by
    rw [Finset.card_image_of_injOn, Finset.card_range]
    intro d1 hd1 d2 hd2 hdd
    simp only [Finset.coe_range, Set.mem_Iio] at hd1 hd2
    exact add_mod_inj (lt_of_lt_of_le hd1 hK) (lt_of_lt_of_le hd2 hK) hdd
  have hsub : ((Finset.range K).image (fun d => (base + d) % t.length)).image
      (fun s => t.getD s 0) ⊆ S.toFinset := by
    intro v hv
    rw [Finset.mem_image] at hv
    obtain ⟨s, hsF, hsv⟩ := hv
    rw [Finset.mem_image] at hsF
    obtain ⟨d, hd, hds⟩ := hsF
    rw [Finset.mem_range] at hd
    rw [List.mem_toFinset, ← hsv, ← hds]
    exact hmem d hd
  have hinj2 : Set.InjOn (fun s => t.getD s 0)
      ((Finset.range K).image (fun d => (base + d) % t.length)) := by
    intro s1 hs1 s2 hs2 hv
    rw [Finset.mem_coe, Finset.mem_image] at hs1 hs2
    obtain ⟨d1, hd1, hds1⟩ := hs1
    obtain ⟨d2, hd2, hds2⟩ := hs2
    rw [Finset.mem_range] at hd1 hd2
    have hs1lt : s1 < t.length := by rw [← hds1]; exact Nat.mod_lt _ hN0
    have hs2lt : s2 < t.length := by rw [← hds2]; exact Nat.mod_lt _ hN0
    have hvS : t.getD s1 0 ∈ S := by
      rw [← hds1]; exact hmem d1 hd1
    exact huniq _ hvS s1 s2 hs1lt hs2lt rfl hv.symm
  have hle : K ≤ S.length := by
    calc K = ((Finset.range K).image (fun d => (base + d) % t.length)).card := hFcard.symm
    _ = (((Finset.range K).image (fun d => (base + d) % t.length)).image
          (fun s => t.getD s 0)).card := (Finset.card_image_of_injOn hinj2).symm
    _ ≤ S.toFinset.card := Finset.card_le_card hsub
    _ = S.length := List.toFinset_card_of_nodup hnd
  omega

/-- Main invariant for the amended load-threshold claim: inserting a
duplicate-free list of non-marker indices, of total length at most the probe
budget and at most the table size, keeps every already-inserted index in
exactly one slot and every slot either empty or holding an inserted index. -/
theorem insertList_all_present (mP N : Nat) :
    ∀ (rest done : List Nat) (t : List Nat),
      t.length = N →
      (∀ j, j < N → t.getD j 0 = EMPTY_SLOT ∨ t.getD j 0 ∈ done) →
      (∀ v, v ∈ done → ∃ j, j < N ∧ t.getD j 0 = v ∧
        ∀ j2, j2 < N → t.getD j2 0 = v → j2 = j) →
      (done ++ rest).Nodup →
      (∀ v, v ∈ done ++ rest → v ≠ EMPTY_SLOT) →
      (done ++ rest).length ≤ mP → (done ++ rest).length ≤ N →
      (∀ j, j < N → (insertList mP t rest).getD j 0 = EMPTY_SLOT ∨
        (insertList mP t rest).getD j 0 ∈ done ++ rest) ∧
      (∀ v, v ∈ done ++ rest → ∃ j, j < N ∧ (insertList mP t rest).getD j 0 = v ∧
        ∀ j2, j2 < N → (insertList mP t rest).getD j2 0 = v → j2 = j) := by
  intro rest
  induction rest with
  | nil =>
    intro done t _ hvals huniq _ _ _ _
    constructor
    · intro j hj; simpa using hvals j hj
    · intro v hv; exact huniq v (by simpa using hv)
  | cons w rest ih =>
    intro done t hlen hvals huniq hnd hne hmp hn
    have hwne : w ≠ EMPTY_SLOT := hne w (by simp)
    have hwdone : w ∉ done := by
      intro hc
      rcases List.nodup_append.mp hnd with ⟨_, _, hdisj⟩
      exact hdisj hc (by simp)
    have htot : (done ++ w :: rest).length = done.length + rest.length + 1 := by
      rw [List.length_append, List.length_cons]; omega
    have hKN : done.length + 1 ≤ N := by rw [htot] at hn; omega
    have hKmP : done.length + 1 ≤ mP := by rw [htot] at hmp; omega
    have hdnd : done.Nodup := (List.nodup_append.mp hnd).1
    have huniqPair : ∀ v, v ∈ done → ∀ j1 j2, j1 < N → j2 < N →
        t.getD j1 0 = v → t.getD j2 0 = v → j1 = j2 := by
      intro v hv j1 j2 hj1 hj2 hv1 hv2
      obtain ⟨j, _, _, hju⟩ := huniq v hv
      rw [hju j1 hj1 hv1, hju j2 hj2 hv2]
    obtain ⟨d, hd, hde⟩ := window_has_empty t done (simpleHash w % N)
      (done.length + 1) N hlen hKN hvals huniqPair hdnd (by omega)
    have hnb : ∀ e, e < mP →
        t.getD ((simpleHash w % t.length + e) % t.length) 0 ≠ w := by
      intro e _
      rw [hlen]
      have hjlt : (simpleHash w % N + e) % N < N := Nat.mod_lt _ (by omega)
      rcases hvals _ hjlt with h1 | h1
      · rw [h1]; exact fun hc => hwne hc.symm
      · intro hc; rw [hc] at h1; exact hwdone h1
    have hex : ∃ e, e < mP ∧
        t.getD ((simpleHash w % t.length + e) % t.length) 0 = EMPTY_SLOT := by
      refine ⟨d, by omega, ?_⟩
      rw [hlen]; exact hde
    obtain ⟨_, s, hslt, hsE, heq⟩ := foundIn_of_insert mP w t hnb hex
    have hslt' : s < N := by rw [← hlen]; exact hslt
    have hlen2 : (reportMissingBrick mP w t).length = N := by
      rw [reportMissingBrick_length]; exact hlen
    have hvals' : ∀ j, j < N → (reportMissingBrick mP w t).getD j 0 = EMPTY_SLOT ∨
        (reportMissingBrick mP w t).getD j 0 ∈ done ++ [w] := by
      intro j hj
      rw [heq]
      by_cases hjs : j = s
      · right; rw [hjs, getD_set_self hslt]; simp
      · rw [getD_set_ne hjs]
        rcases hvals j hj with h1 | h1
        · left; exact h1
        · right; rw [List.mem_append]; left; exact h1
    have huniq' : ∀ v, v ∈ done ++ [w] →
        ∃ j, j < N ∧ (reportMissingBrick mP w t).getD j 0 = v ∧
          ∀ j2, j2 < N → (reportMissingBrick mP w t).getD j2 0 = v → j2 = j := by
      intro v hv
      rw [List.mem_append, List.mem_singleton] at hv
      rcases hv with hv | hv
      · obtain ⟨j, hj, hjv, hju⟩ := huniq v hv
        have hvne : v ≠ EMPTY_SLOT := hne v (by rw [List.mem_append]; left; exact hv)
        have hjs : j ≠ s := by
          intro hc
          rw [hc, hsE] at hjv
          exact hvne hjv.symm
        refine ⟨j, hj, ?_, ?_⟩
        · rw [heq, getD_set_ne hjs]; exact hjv
        · intro j2 hj2 hj2v
          rw [heq] at hj2v
          by_cases hj2s : j2 = s
          · rw [hj2s, getD_set_self hslt] at hj2v
            rw [← hj2v] at hv
            exact absurd hv hwdone
          · rw [getD_set_ne hj2s] at hj2v
            exact hju j2 hj2 hj2v
      · subst hv
        refine ⟨s, hslt', ?_, ?_⟩
        · rw [heq]; exact getD_set_self hslt
        · intro j2 hj2 hj2v
          by_cases hj2s : j2 = s
          · exact hj2s
          · rw [heq, getD_set_ne hj2s] at hj2v
            rcases hvals j2 hj2 with h2 | h2
            · rw [hj2v] at h2; exact absurd h2 hwne
            · rw [hj2v] at h2; exact absurd h2 hwdone
    have hassoc : (done ++ [w]) ++ rest = done ++ w :: rest := by simp
    obtain ⟨hv2, hu2⟩ := ih (done ++ [w]) (reportMissingBrick mP w t) hlen2
      hvals' huniq' (by rw [hassoc]; exact hnd) (by rw [hassoc]; exact hne)
      (by rw [hassoc]; exact hmp) (by rw [hassoc]; exact hn)
    constructor
    · intro j hj
      have := hv2 j hj
      rw [hassoc] at this
      exact this
    · intro v hv
      have := hu2 v (by rw [hassoc]; exact hv)
      exact this

/-- C2 (amended): for every collection of pairwise-distinct non-marker brick
indices whose count is at most both MAX_PROBING_ATTEMPTS and HASHTABLE_SIZE,
inserted into a table initially filled with the empty marker, every inserted
index ends up present in exactly one slot: below this stricter threshold no
insert is dropped and no index duplicated. The threshold
HASHTABLE_SIZE - MAX_PROBING_ATTEMPTS of the original claim is refuted by
insert_below_load_threshold_cex. -/
theorem insert_within_probe_budget_all_present (mP N : Nat) (l : List Nat)
    (hnd : l.Nodup) (hne : ∀ v, v ∈ l → v ≠ EMPTY_SLOT)
    (hmp : l.length ≤ mP) (hn : l.length ≤ N) :
    ∀ i, i ∈ l → ∃! j, j < N ∧
      (insertList mP (List.replicate N EMPTY_SLOT) l).getD j 0 = i := by
  have h0 := insertList_all_present mP N l [] (List.replicate N EMPTY_SLOT)
    (List.length_replicate N EMPTY_SLOT)
    (fun j hj => Or.inl (getD_replicate hj))
    (fun v hv => absurd hv (List.not_mem_nil v))
    (by simpa using hnd) (by simpa using hne) (by simpa using hmp) (by simpa using hn)
  obtain ⟨_, hu⟩ := h0
  intro i hi
  obtain ⟨j, hj, hjv, hju⟩ := hu i (by simpa using hi)
  exact ⟨j, ⟨hj, hjv⟩, fun y hy => hju y hy.1 hy.2⟩

theorem insert_within_probe_budget_all_present_witness :
    ([1, 2, 9] : List Nat).Nodup ∧
    (∀ v, v ∈ ([1, 2, 9] : List Nat) → v ≠ EMPTY_SLOT) ∧
    ([1, 2, 9] : List Nat).length ≤ 3 ∧ ([1, 2, 9] : List Nat).length ≤ 4 ∧
    (∃! j, j < 4 ∧
      (insertList 3 (List.replicate 4 EMPTY_SLOT) [1, 2, 9]).getD j 0 = 9) :=
  ⟨by decide, by decide, by decide, by decide,
    insert_within_probe_budget_all_present 3 4 [1, 2, 9]
      (by decide) (by decide) (by decide) (by decide) 9 (by decide)⟩

set_option maxRecDepth 100000 in
/-- C2 counterexample: eleven pairwise-distinct brick indices, far fewer than
HASHTABLE_SIZE - MAX_PROBING_ATTEMPTS = 118 of them, that all hash to the same
home slot of a 128-entry table. With 10 probing attempts the first ten inserts
fill the whole probing window, and the eleventh insert is dropped: index 1280
ends up present in no slot at all, refuting the claimed load threshold. -/
theorem insert_below_load_threshold_cex :
    ([0, 128, 256, 384, 512, 640, 768, 896, 1024, 1152, 1280] : List Nat).Nodup ∧
    ([0, 128, 256, 384, 512, 640, 768, 896, 1024, 1152, 1280] : List Nat).length ≤ 128 - 10 ∧
    (∀ v, v ∈ ([0, 128, 256, 384, 512, 640, 768, 896, 1024, 1152, 1280] : List Nat) →
      v ≠ EMPTY_SLOT) ∧
    1280 ∈ ([0, 128, 256, 384, 512, 640, 768, 896, 1024, 1152, 1280] : List Nat) ∧
    1280 ∉ insertList 10 (List.replicate 128 EMPTY_SLOT)
      [0, 128, 256, 384, 512, 640, 768, 896, 1024, 1152, 1280] := by
  decide

/-! ## ShaderTypes.h : brick page-state flags and level metadata -/

/-- BI_MISSING from BrickIDFlags: brick is not paged in yet. -/
def BI_MISSING : Nat := 0

/-- BI_CHILD_EMPTY from BrickIDFlags: brick and all finer-level children are
empty. -/
def BI_CHILD_EMPTY : Nat := 1

/-- BI_EMPTY from BrickIDFlags: brick is empty, finer levels may hold data. -/
def BI_EMPTY : Nat := 2

/-- BI_FLAG_COUNT from BrickIDFlags: offset subtracted from resident brick
metadata values to obtain the pool slot. -/
def BI_FLAG_COUNT : Nat := 3

/-- Exact rational model of a Metal float3 value. -/
structure Vec3 where
  x : ℚ
  y : ℚ
  z : ℚ
deriving DecidableEq

/-- Model of a Metal uint3 value. -/
structure Uint3 where
  x : Nat
  y : Nat
  z : Nat
deriving DecidableEq

/-- Model of a Metal uint4 value (brick coordinates plus LOD in w). -/
structure Uint4 where
  x : Nat
  y : Nat
  z : Nat
  w : Nat
deriving DecidableEq

/-- LevelData from ShaderTypes.h: per-LOD metadata of the brick hierarchy. -/
structure LevelData where
  bricksX : Nat
  bricksXTimesBricksY : Nat
  prevBricks : Nat
  fractionalBrickLayout : Vec3
deriving DecidableEq

/-- The compile-time shader constants of ShaderTypes.h that getBrick and its
helpers read (they are injected into the shader at load time). -/
structure ShaderConfig where
  LEVEL_COUNT : Nat
  POOL_CAPACITY : Uint3
  BRICK_SIZE : Nat
  POOL_SIZE : Vec3
  OVERLAP_STEP : Vec3
  REQUEST_LOWRES_LOD : Bool
deriving DecidableEq

/-! ## VolumeAtlas.h : brick addressing -/

/-- Metal float-to-uint conversion: truncation toward zero. For a nonnegative
value this is the floor; a negative value (out of range for uint) is modelled
as saturating to 0, which Int.toNat of the floor produces as well. The
executable Rat.floor is used; it agrees with the floor of the archimedean
order structure. -/
def uintOfFloat (q : ℚ) : Nat := q.floor.toNat

theorem ratFloor_eq_intFloor (q : ℚ) : q.floor = ⌊q⌋ := by
  rw [Rat.floor_def', Rat.floor_def]

/-- Metal scalar clamp: min(max(x, lo), hi). -/
def clampQ (x lo hi : ℚ) : ℚ := min (max x lo) hi

/-- Componentwise clamp of a float3 against scalar bounds. -/
def clampVec3 (v : Vec3) (lo hi : ℚ) : Vec3 :=
  ⟨clampQ v.x lo hi, clampQ v.y lo hi, clampQ v.z lo hi⟩

/-- Metal step(edge, x): 0 if x < edge, else 1 (already converted to uint as
the caller in brickExit does). -/
def step (edge x : ℚ) : Nat := if x < edge then 0 else 1

/-- getBrickIndex from VolumeAtlas.h: flat index of a brick across the whole
hierarchy. -/
def getBrickIndex (brickCoords : Uint4) (levelArray : Nat → LevelData) : Nat :=
  let level := levelArray brickCoords.w
  level.prevBricks + brickCoords.x + brickCoords.y * level.bricksX +
    brickCoords.z * level.bricksXTimesBricksY

/-- computeBrickCoords from VolumeAtlas.h: grid cell of a normalized position
at a given LOD. -/
def computeBrickCoords (normEntryCoords : Vec3) (levelArray : Nat → LevelData)
    (LOD : Nat) : Uint4 :=
  let level := levelArray LOD
  ⟨uintOfFloat (normEntryCoords.x * level.fractionalBrickLayout.x),
   uintOfFloat (normEntryCoords.y * level.fractionalBrickLayout.y),
   uintOfFloat (normEntryCoords.z * level.fractionalBrickLayout.z),
   LOD⟩

/-- BrickCorners from VolumeAtlas.h: a float3 values[2] pair of corners. -/
structure BrickCorners where
  values0 : Vec3
  values1 : Vec3
deriving DecidableEq

/-- Array indexing values[i] on a BrickCorners, for i in {0, 1}. -/
def BrickCorners.sel (c : BrickCorners) (i : Nat) : Vec3 :=
  if i = 0 then c.values0 else c.values1

/-- getBrickCorners from VolumeAtlas.h: axis-aligned bounds of a brick in
normalized dataset space. -/
def getBrickCorners (brickCoords : Uint4) (levelArray : Nat → LevelData) :
    BrickCorners :=
  let f := (levelArray brickCoords.w).fractionalBrickLayout
  { values0 := ⟨(brickCoords.x : ℚ) / f.x, (brickCoords.y : ℚ) / f.y,
      (brickCoords.z : ℚ) / f.z⟩
    values1 := ⟨((brickCoords.x : ℚ) + 1) / f.x, ((brickCoords.y : ℚ) + 1) / f.y,
      ((brickCoords.z : ℚ) + 1) / f.z⟩ }

/-- brickExit from VolumeAtlas.h: exit point of the ray from the current brick,
clipped against brick corners and the dataset cube bounds using the
ray-sign-dependent corner selection. The cubeBounds float3[2] array is modelled
with the same two-corner record as BrickCorners. -/
def brickExit (pointInBrick dir : Vec3) (cubeBounds : BrickCorners)
    (corners : BrickCorners) : Vec3 :=
  let divx := 1 / dir.x
  let divy := 1 / dir.y
  let divz := 1 / dir.z
  let sx := step 0 divx
  let sy := step 0 divy
  let sz := step 0 divz
  let tx := ((corners.sel sx).x - pointInBrick.x) * divx
  let ty := ((corners.sel sy).y - pointInBrick.y) * divy
  let tz := ((corners.sel sz).z - pointInBrick.z) * divz
  let tx2 := min tx (((cubeBounds.sel sx).x - pointInBrick.x) * divx)
  let ty2 := min ty (((cubeBounds.sel sy).y - pointInBrick.y) * divy)
  let tz2 := min tz (((cubeBounds.sel sz).z - pointInBrick.z) * divz)
  let m := min (min tx2 ty2) tz2
  ⟨pointInBrick.x + m * dir.x, pointInBrick.y + m * dir.y,
   pointInBrick.z + m * dir.z⟩

/-- infoToCoords from VolumeAtlas.h: decompose a resident brick metadata value
into 3D pool-grid coordinates. -/
def infoToCoords (cfg : ShaderConfig) (brickInfo : Nat) : Uint3 :=
  let brickID := brickInfo - BI_FLAG_COUNT
  ⟨brickID % cfg.POOL_CAPACITY.x,
   (brickID / cfg.POOL_CAPACITY.x) % cfg.POOL_CAPACITY.y,
   brickID / (cfg.POOL_CAPACITY.x * cfg.POOL_CAPACITY.y)⟩

/-- brickPoolCoords from VolumeAtlas.h: pool-space bounds of a resident brick,
shrunk by the overlap border. -/
def brickPoolCoords (cfg : ShaderConfig) (brickInfo : Nat) : BrickCorners :=
  let v := infoToCoords cfg brickInfo
  let px := v.x * cfg.BRICK_SIZE
  let py := v.y * cfg.BRICK_SIZE
  let pz := v.z * cfg.BRICK_SIZE
  { values0 := ⟨(px : ℚ) / cfg.POOL_SIZE.x + cfg.OVERLAP_STEP.x,
      (py : ℚ) / cfg.POOL_SIZE.y + cfg.OVERLAP_STEP.y,
      (pz : ℚ) / cfg.POOL_SIZE.z + cfg.OVERLAP_STEP.z⟩
    values1 := ⟨((px + cfg.BRICK_SIZE : Nat) : ℚ) / cfg.POOL_SIZE.x - cfg.OVERLAP_STEP.x,
      ((py + cfg.BRICK_SIZE : Nat) : ℚ) / cfg.POOL_SIZE.y - cfg.OVERLAP_STEP.y,
      ((pz + cfg.BRICK_SIZE : Nat) : ℚ) / cfg.POOL_SIZE.z - cfg.OVERLAP_STEP.z⟩ }

/-- PoolBrickInformation from VolumeAtlas.h. -/
structure PoolBrickInformation where
  poolEntryCoords : Vec3
  poolExitCoords : Vec3
  normToPoolScale : Vec3
  normToPoolTrans : Vec3
deriving DecidableEq

/-- normCoordsToPoolCoords from VolumeAtlas.h: affine map from dataset
coordinates inside the brick bounds to pool coordinates, applied to the entry
and exit points. -/
def normCoordsToPoolCoords (cfg : ShaderConfig) (normEntryCoords normExitCoords : Vec3)
    (corners : BrickCorners) (brickInfo : Nat) : PoolBrickInformation :=
  let poolCorners := brickPoolCoords cfg brickInfo
  let scale : Vec3 :=
    ⟨(poolCorners.values1.x - poolCorners.values0.x) /
        (corners.values1.x - corners.values0.x),
     (poolCorners.values1.y - poolCorners.values0.y) /
        (corners.values1.y - corners.values0.y),
     (poolCorners.values1.z - poolCorners.values0.z) /
        (corners.values1.z - corners.values0.z)⟩
  let trans : Vec3 :=
    ⟨poolCorners.values0.x - corners.values0.x * scale.x,
     poolCorners.values0.y - corners.values0.y * scale.y,
     poolCorners.values0.z - corners.values0.z * scale.z⟩
  { poolEntryCoords := ⟨normEntryCoords.x * scale.x + trans.x,
      normEntryCoords.y * scale.y + trans.y,
      normEntryCoords.z * scale.z + trans.z⟩
    poolExitCoords := ⟨normExitCoords.x * scale.x + trans.x,
      normExitCoords.y * scale.y + trans.y,
      normExitCoords.z * scale.z + trans.z⟩
    normToPoolScale := scale
    normToPoolTrans := trans }

/-- computeLOD from VolumeAtlas.h. The metal log2 primitive on floats is
abstracted as a function parameter lg, because the exact binary logarithm is
not a rational-valued operation; the conversion and clamping structure around
it is embedded exactly: uint truncation toward zero (saturating at 0 for the
out-of-range negative case) followed by min with LEVEL_COUNT - 1. -/
def computeLOD (lg : ℚ → ℚ) (LEVEL_COUNT : Nat)
    (LOD_FACTOR LEVEL_ZERO_WORLD_SPACE_ERROR : ℚ) (dist : ℚ) : Nat :=
  min (LEVEL_COUNT - 1)
    (uintOfFloat (lg (LOD_FACTOR * dist / LEVEL_ZERO_WORLD_SPACE_ERROR)))

theorem uintOfFloat_cast_nonneg {q : ℚ} (h : 0 ≤ q) :
    ((uintOfFloat q : Nat) : ℚ) = ((⌊q⌋ : ℤ) : ℚ) := by
  unfold uintOfFloat
  rw [ratFloor_eq_intFloor]
  have hfl : (0 : ℤ) ≤ ⌊q⌋ := Int.floor_nonneg.mpr h
  exact_mod_cast congrArg (fun n : ℤ => (n : ℚ)) (Int.toNat_of_nonneg hfl)

/-- C7: round-trip containment of brick addressing. For every position in the
unit cube and every level with positive fractional brick layout, the corners
computed by getBrickCorners from the coordinate computed by computeBrickCoords
contain the position componentwise. -/
theorem brick_bounds_roundtrip (levelArray : Nat → LevelData) (L : Nat) (p : Vec3)
    (hx0 : 0 ≤ p.x) (hx1 : p.x ≤ 1) (hy0 : 0 ≤ p.y) (hy1 : p.y ≤ 1)
    (hz0 : 0 ≤ p.z) (hz1 : p.z ≤ 1)
    (hfx : 0 < (levelArray L).fractionalBrickLayout.x)
    (hfy : 0 < (levelArray L).fractionalBrickLayout.y)
    (hfz : 0 < (levelArray L).fractionalBrickLayout.z) :
    ((getBrickCorners (computeBrickCoords p levelArray L) levelArray).values0.x ≤ p.x ∧
      p.x ≤ (getBrickCorners (computeBrickCoords p levelArray L) levelArray).values1.x) ∧
    ((getBrickCorners (computeBrickCoords p levelArray L) levelArray).values0.y ≤ p.y ∧
      p.y ≤ (getBrickCorners (computeBrickCoords p levelArray L) levelArray).values1.y) ∧
    ((getBrickCorners (computeBrickCoords p levelArray L) levelArray).values0.z ≤ p.z ∧
      p.z ≤ (getBrickCorners (computeBrickCoords p levelArray L) levelArray).values1.z) := by
  have key : ∀ (q f : ℚ), 0 ≤ q → 0 < f →
      ((uintOfFloat (q * f) : Nat) : ℚ) / f ≤ q ∧
        q ≤ (((uintOfFloat (q * f) : Nat) : ℚ) + 1) / f := by
    intro q f hq hf
    have hqf : 0 ≤ q * f := mul_nonneg hq (le_of_lt hf)
    have hcast := uintOfFloat_cast_nonneg hqf
    constructor
    · rw [div_le_iff₀ hf, hcast]
      exact Int.floor_le (q * f)
    · rw [le_div_iff₀ hf, hcast]
      have := Int.lt_floor_add_one (q * f)
      linarith
  have hcx := key p.x (levelArray L).fractionalBrickLayout.x hx0 hfx
  have hcy := key p.y (levelArray L).fractionalBrickLayout.y hy0 hfy
  have hcz := key p.z (levelArray L).fractionalBrickLayout.z hz0 hfz
  simp only [getBrickCorners, computeBrickCoords]
  exact ⟨⟨hcx.1, hcx.2⟩, ⟨hcy.1, hcy.2⟩, ⟨hcz.1, hcz.2⟩⟩

theorem brick_bounds_roundtrip_witness :
    (0 ≤ (1 / 2 : ℚ) ∧ (1 / 2 : ℚ) ≤ 1 ∧ 0 ≤ (1 / 3 : ℚ) ∧ (1 / 3 : ℚ) ≤ 1 ∧
      0 ≤ (2 / 3 : ℚ) ∧ (2 / 3 : ℚ) ≤ 1 ∧ (0 : ℚ) < 2 ∧ (0 : ℚ) < 3 ∧ (0 : ℚ) < 4) ∧
    (((getBrickCorners
        (computeBrickCoords ⟨1 / 2, 1 / 3, 2 / 3⟩
          (fun _ => ⟨1, 1, 0, ⟨2, 3, 4⟩⟩) 0)
        (fun _ => ⟨1, 1, 0, ⟨2, 3, 4⟩⟩)).values0.x ≤ (1 / 2 : ℚ) ∧
      (1 / 2 : ℚ) ≤ (getBrickCorners
        (computeBrickCoords ⟨1 / 2, 1 / 3, 2 / 3⟩
          (fun _ => ⟨1, 1, 0, ⟨2, 3, 4⟩⟩) 0)
        (fun _ => ⟨1, 1, 0, ⟨2, 3, 4⟩⟩)).values1.x) ∧
    ((getBrickCorners
        (computeBrickCoords ⟨1 / 2, 1 / 3, 2 / 3⟩
          (fun _ => ⟨1, 1, 0, ⟨2, 3, 4⟩⟩) 0)
        (fun _ => ⟨1, 1, 0, ⟨2, 3, 4⟩⟩)).values0.y ≤ (1 / 3 : ℚ) ∧
      (1 / 3 : ℚ) ≤ (getBrickCorners
        (computeBrickCoords ⟨1 / 2, 1 / 3, 2 / 3⟩
          (fun _ => ⟨1, 1, 0, ⟨2, 3, 4⟩⟩) 0)
        (fun _ => ⟨1, 1, 0, ⟨2, 3, 4⟩⟩)).values1.y) ∧
    ((getBrickCorners
        (computeBrickCoords ⟨1 / 2, 1 / 3, 2 / 3⟩
          (fun _ => ⟨1, 1, 0, ⟨2, 3, 4⟩⟩) 0)
        (fun _ => ⟨1, 1, 0, ⟨2, 3, 4⟩⟩)).values0.z ≤ (2 / 3 : ℚ) ∧
      (2 / 3 : ℚ) ≤ (getBrickCorners
        (computeBrickCoords ⟨1 / 2, 1 / 3, 2 / 3⟩
          (fun _ => ⟨1, 1, 0, ⟨2, 3, 4⟩⟩) 0)
        (fun _ => ⟨1, 1, 0, ⟨2, 3, 4⟩⟩)).values1.z)) :=
  ⟨by norm_num,
    brick_bounds_roundtrip (fun _ => ⟨1, 1, 0, ⟨2, 3, 4⟩⟩) 0 ⟨1 / 2, 1 / 3, 2 / 3⟩
      (by norm_num) (by norm_num) (by norm_num) (by norm_num) (by norm_num)
      (by norm_num) (by norm_num) (by norm_num) (by norm_num)⟩

/-- C8: for every nonnegative distance, computeLOD equals the clamped
logarithmic LOD law: the floor of the logarithm clamped below at 0 and above
at LEVEL_COUNT - 1 (the logarithm itself abstracted as the parameter lg). -/
theorem computeLOD_clamp_law (lg : ℚ → ℚ) (LC : Nat) (fa er d : ℚ)
    (hd : 0 ≤ d) :
    computeLOD lg LC fa er d =
      (min (max (⌊lg (fa * d / er)⌋) 0) ((LC - 1 : Nat) : ℤ)).toNat := by
  unfold computeLOD uintOfFloat
  rw [ratFloor_eq_intFloor]
  generalize ⌊lg (fa * d / er)⌋ = n
  omega

theorem computeLOD_clamp_law_witness :
    (0 : ℚ) ≤ 8 ∧
    computeLOD (fun _ => 3) 10 1 1 8 =
      (min (max (⌊(fun _ : ℚ => (3 : ℚ)) ((1 : ℚ) * 8 / 1)⌋) 0) ((10 - 1 : Nat) : ℤ)).toNat :=
  ⟨by norm_num, computeLOD_clamp_law (fun _ => 3) 10 1 1 8 (by norm_num)⟩

/-! ## VolumeAtlas.h : getBrick, the brick resolver -/

/-- The do-while LOD-ascension loop of getBrick on a cache miss. Starting from
the requested LOD, it repeatedly moves one level coarser and recomputes
coordinates, index and metadata until the metadata is not BI_MISSING. The
source loop is unbounded; here one unit of fuel permits one iteration and
exhausted fuel yields none. On success it returns the new LOD, the brick
coordinates, index and metadata at that LOD, and lastBrickIndex: the index
visited just before the loop exited. -/
def ascendMissing (brickMeta : Nat → Nat) (levelArray : Nat → LevelData)
    (normEntryCoords : Vec3) : Nat → Nat → Nat → Option (Nat × Uint4 × Nat × Nat × Nat)
  | 0, _, _ => none
  | fuel + 1, LOD, brickIndex =>
    let LOD2 := LOD + 1
    let brickCoords := computeBrickCoords normEntryCoords levelArray LOD2
    let brickIndex2 := getBrickIndex brickCoords levelArray
    let brickInfo2 := brickMeta brickIndex2
    if brickInfo2 = BI_MISSING then
      ascendMissing brickMeta levelArray normEntryCoords fuel LOD2 brickIndex2
    else
      some (LOD2, brickCoords, brickIndex2, brickInfo2, brickIndex)

/-- The empty-space ascension for-loop of getBrick: for lowResLOD from the
current LOD + 1 while lowResLOD < LEVEL_COUNT, adopt the coarser brick when its
metadata is exactly BI_CHILD_EMPTY, stop otherwise. The state triple carries
the current brick coordinates, metadata and LOD. Fuel counts the remaining
loop iterations, LEVEL_COUNT - (startLOD + 1) at the call site. -/
def emptyAscend (brickMeta : Nat → Nat) (levelArray : Nat → LevelData)
    (normEntryCoords : Vec3) : Nat → Nat → Uint4 × Nat × Nat → Uint4 × Nat × Nat
  | 0, _, cur => cur
  | fuel + 1, lowResLOD, cur =>
    let lowResBrickCoords := computeBrickCoords normEntryCoords levelArray lowResLOD
    let lowResBrickIndex := getBrickIndex lowResBrickCoords levelArray
    let lowResBrickInfo := brickMeta lowResBrickIndex
    if lowResBrickInfo = BI_CHILD_EMPTY then
      emptyAscend brickMeta levelArray normEntryCoords fuel (lowResLOD + 1)
        (lowResBrickCoords, lowResBrickInfo, lowResLOD)
    else
      cur

/-- BrickInformation from VolumeAtlas.h. The pool transform, left uninitialized
by the source for empty bricks, is modelled as an Option that is none exactly
when it is not computed. -/
structure BrickInformation where
  LOD : Nat
  brickIndex : Nat
  empty : Bool
  substitute : Bool
  normExitCoords : Vec3
  poolBrickInfo : Option PoolBrickInformation
deriving DecidableEq

/-- The tail of getBrick after the cache-miss handling: emptiness test,
empty-space ascension, corner and exit computation, and the pool transform for
non-empty bricks. Arguments lod1, brickCoords1, brickInfo1 are the values the
respective source variables hold when reaching the emptiness test; bi0 and sub
are the already-fixed result fields brickIndex and substitute; hb is the hash
buffer to return. -/
def finishBrick (cfg : ShaderConfig) (normEntryCoords direction : Vec3)
    (cubeBounds : BrickCorners) (brickMeta : Nat → Nat)
    (levelArray : Nat → LevelData) (bi0 : Nat) (sub : Bool) (lod1 : Nat)
    (brickCoords1 : Uint4) (brickInfo1 : Nat) (hb : List Nat) :
    BrickInformation × List Nat :=
  let empty := decide (brickInfo1 ≤ BI_EMPTY)
  let st :=
    if empty then
      emptyAscend brickMeta levelArray normEntryCoords
        (cfg.LEVEL_COUNT - (lod1 + 1)) (lod1 + 1) (brickCoords1, brickInfo1, lod1)
    else
      (brickCoords1, brickInfo1, lod1)
  let corners := getBrickCorners st.1 levelArray
  let exitCoords := brickExit normEntryCoords direction cubeBounds corners
  if empty then
    ({ LOD := st.2.2, brickIndex := bi0, empty := true, substitute := sub,
       normExitCoords := exitCoords, poolBrickInfo := none }, hb)
  else
    ({ LOD := st.2.2, brickIndex := bi0, empty := false, substitute := sub,
       normExitCoords := exitCoords,
       poolBrickInfo := some (normCoordsToPoolCoords cfg normEntryCoords
         exitCoords corners st.2.1) }, hb)

/-- getBrick from VolumeAtlas.h. Returns the resolved BrickInformation together
with the hash buffer after any miss reports, or none when the unbounded
miss-ascension do-while loop does not exit within the given fuel. -/
def getBrick (cfg : ShaderConfig) (normEntryCoords0 : Vec3) (iLOD : Nat)
    (direction : Vec3) (cubeBounds : BrickCorners) (brickMeta : Nat → Nat)
    (levelArray : Nat → LevelData) (hashBuffer : List Nat) (maxProbes : Nat)
    (dontRequest : Bool) (fuel : Nat) : Option (BrickInformation × List Nat) :=
  let normEntryCoords := clampVec3 normEntryCoords0 0 1
  let brickCoords := computeBrickCoords normEntryCoords levelArray iLOD
  let brickIndex := getBrickIndex brickCoords levelArray
  let brickInfo := brickMeta brickIndex
  let sub := decide (brickInfo = BI_MISSING)
  if dontRequest = false ∧ brickInfo = BI_MISSING then
    let hb1 := reportMissingBrick maxProbes brickIndex hashBuffer
    match ascendMissing brickMeta levelArray normEntryCoords fuel iLOD brickIndex with
    | none => none
    | some (lod1, brickCoords1, _, brickInfo1, lastBrickIndex) =>
      let hb2 :=
        if cfg.REQUEST_LOWRES_LOD = true ∧ iLOD < lod1 then
          reportMissingBrick maxProbes lastBrickIndex hb1
        else hb1
      some (finishBrick cfg normEntryCoords direction cubeBounds brickMeta
        levelArray brickIndex sub lod1 brickCoords1 brickInfo1 hb2)
  else
    some (finishBrick cfg normEntryCoords direction cubeBounds brickMeta
      levelArray brickIndex sub iLOD brickCoords brickInfo hashBuffer)

/-- Residency-table state of the brick containing a position at a level: the
metadata value read by getBrick for that brick. -/
def residencyAt (brickMeta : Nat → Nat) (levelArray : Nat → LevelData)
    (normEntryCoords : Vec3) (LOD : Nat) : Nat :=
  brickMeta (getBrickIndex (computeBrickCoords normEntryCoords levelArray LOD) levelArray)

/-- If some level k above the start, within reach of the fuel, is not missing,
the miss-ascension loop exits at the first non-missing level, which is at most
k; in particular k - LOD iterations of fuel suffice. -/
theorem ascendMissing_finds (brickMeta : Nat → Nat) (levelArray : Nat → LevelData)
    (p : Vec3) :
    ∀ (fuel LOD bi0 k : Nat), LOD < k → k ≤ LOD + fuel →
      residencyAt brickMeta levelArray p k ≠ BI_MISSING →
      ∃ L c i s last,
        ascendMissing brickMeta levelArray p fuel LOD bi0 = some (L, c, i, s, last) ∧
        L ≤ k ∧ s = residencyAt brickMeta levelArray p L ∧ s ≠ BI_MISSING := by
  intro fuel
  induction fuel with
  | zero => intro LOD bi0 k h1 h2 _; omega
  | succ fuel ih =>
    intro LOD bi0 k h1 h2 h3
    by_cases hm : brickMeta (getBrickIndex
        (computeBrickCoords p levelArray (LOD + 1)) levelArray) = BI_MISSING
    · have hk : LOD + 1 < k := by
        rcases Nat.lt_or_ge (LOD + 1) k with h | h
        · exact h
        · have : k = LOD + 1 := by omega
          rw [this] at h3
          exact absurd hm h3
      obtain ⟨L, c, i, s, last, heq, hL, hs, hnm⟩ :=
        ih (LOD + 1) (getBrickIndex (computeBrickCoords p levelArray (LOD + 1)) levelArray)
          k hk (by omega) h3
      refine ⟨L, c, i, s, last, ?_, hL, hs, hnm⟩
      simp only [ascendMissing]
      rw [if_pos hm]
      exact heq
    · refine ⟨LOD + 1, computeBrickCoords p levelArray (LOD + 1),
        getBrickIndex (computeBrickCoords p levelArray (LOD + 1)) levelArray,
        brickMeta (getBrickIndex (computeBrickCoords p levelArray (LOD + 1)) levelArray),
        bi0, ?_, by omega, rfl, hm⟩
      simp only [ascendMissing]
      rw [if_neg hm]

/-- The LOD produced by the empty-space ascension stays below any bound that
dominates both the incoming LOD and the loop range. -/
theorem emptyAscend_lt (brickMeta : Nat → Nat) (levelArray : Nat → LevelData)
    (p : Vec3) (B : Nat) :
    ∀ (fuel l : Nat) (cur : Uint4 × Nat × Nat), cur.2.2 < B → l + fuel ≤ B →
      (emptyAscend brickMeta levelArray p fuel l cur).2.2 < B := by
  intro fuel
  induction fuel with
  | zero => intro l cur h1 _; exact h1
  | succ fuel ih =>
    intro l cur h1 h2
    simp only [emptyAscend]
    split
    · refine ih (l + 1) _ ?_ (by omega)
      show l < B
      omega
    · exact h1

/-- Full characterization of the empty-space ascension when entered at
lowResLOD = L + 1: the returned LOD R satisfies L ≤ R, every level in
(L, R] has metadata exactly BI_CHILD_EMPTY, and if the loop range extends past
R + 1 then level R + 1 is not BI_CHILD_EMPTY. -/
theorem emptyAscend_spec (brickMeta : Nat → Nat) (levelArray : Nat → LevelData)
    (p : Vec3) :
    ∀ (fuel l : Nat) (c : Uint4) (s L : Nat), L + 1 = l →
      L ≤ (emptyAscend brickMeta levelArray p fuel l (c, s, L)).2.2 ∧
      (∀ m, L < m → m ≤ (emptyAscend brickMeta levelArray p fuel l (c, s, L)).2.2 →
        residencyAt brickMeta levelArray p m = BI_CHILD_EMPTY) ∧
      ((emptyAscend brickMeta levelArray p fuel l (c, s, L)).2.2 + 1 < l + fuel →
        residencyAt brickMeta levelArray p
          ((emptyAscend brickMeta levelArray p fuel l (c, s, L)).2.2 + 1) ≠
          BI_CHILD_EMPTY) := by
  intro fuel
  induction fuel with
  | zero =>
    intro l c s L hL
    simp only [emptyAscend]
    refine ⟨Nat.le_refl L, ?_, ?_⟩
    · intro m hm1 hm2; omega
    · intro hlt; omega
  | succ fuel ih =>
    intro l c s L hL
    by_cases hce : brickMeta (getBrickIndex
        (computeBrickCoords p levelArray l) levelArray) = BI_CHILD_EMPTY
    · have hstep : emptyAscend brickMeta levelArray p (fuel + 1) l (c, s, L) =
          emptyAscend brickMeta levelArray p fuel (l + 1)
            (computeBrickCoords p levelArray l,
             brickMeta (getBrickIndex (computeBrickCoords p levelArray l) levelArray),
             l) := by
        simp only [emptyAscend]
        rw [if_pos hce]
      obtain ⟨ih1, ih2, ih3⟩ := ih (l + 1) (computeBrickCoords p levelArray l)
        (brickMeta (getBrickIndex (computeBrickCoords p levelArray l) levelArray)) l rfl
      rw [hstep]
      refine ⟨by omega, ?_, ?_⟩
      · intro m hm1 hm2
        rcases Nat.lt_or_ge l m with h | h
        · exact ih2 m h hm2
        · have : m = l := by omega
          rw [this]
          exact hce
      · intro hlt
        exact ih3 (by omega)
    · have hstep : emptyAscend brickMeta levelArray p (fuel + 1) l (c, s, L) =
          (c, s, L) := by
        simp only [emptyAscend]
        rw [if_neg hce]
      rw [hstep]
      refine ⟨Nat.le_refl L, ?_, ?_⟩
      · intro m hm1 hm2
        have hm2b : m ≤ L := hm2
        omega
      · intro _
        show residencyAt brickMeta levelArray p (L + 1) ≠ BI_CHILD_EMPTY
        rw [hL]
        exact hce

theorem finishBrick_substitute (cfg : ShaderConfig) (p dir : Vec3)
    (cb : BrickCorners) (brickMeta : Nat → Nat) (levelArray : Nat → LevelData)
    (bi0 : Nat) (sub : Bool) (lod1 : Nat) (c1 : Uint4) (s1 : Nat) (hb : List Nat) :
    (finishBrick cfg p dir cb brickMeta levelArray bi0 sub lod1 c1 s1 hb).1.substitute = sub := by
  by_cases hE : s1 ≤ BI_EMPTY <;> simp [finishBrick, hE]

theorem finishBrick_snd (cfg : ShaderConfig) (p dir : Vec3)
    (cb : BrickCorners) (brickMeta : Nat → Nat) (levelArray : Nat → LevelData)
    (bi0 : Nat) (sub : Bool) (lod1 : Nat) (c1 : Uint4) (s1 : Nat) (hb : List Nat) :
    (finishBrick cfg p dir cb brickMeta levelArray bi0 sub lod1 c1 s1 hb).2 = hb := by
  by_cases hE : s1 ≤ BI_EMPTY <;> simp [finishBrick, hE]

theorem finishBrick_empty_case (cfg : ShaderConfig) (p dir : Vec3)
    (cb : BrickCorners) (brickMeta : Nat → Nat) (levelArray : Nat → LevelData)
    (bi0 : Nat) (sub : Bool) (lod1 : Nat) (c1 : Uint4) (s1 : Nat) (hb : List Nat)
    (h : s1 ≤ BI_EMPTY) :
    (finishBrick cfg p dir cb brickMeta levelArray bi0 sub lod1 c1 s1 hb).1.empty = true ∧
    (finishBrick cfg p dir cb brickMeta levelArray bi0 sub lod1 c1 s1 hb).1.poolBrickInfo = none := by
  simp [finishBrick, h]

theorem finishBrick_LOD_lt (cfg : ShaderConfig) (p dir : Vec3)
    (cb : BrickCorners) (brickMeta : Nat → Nat) (levelArray : Nat → LevelData)
    (bi0 : Nat) (sub : Bool) (lod1 : Nat) (c1 : Uint4) (s1 : Nat) (hb : List Nat)
    (h : lod1 < cfg.LEVEL_COUNT) :
    (finishBrick cfg p dir cb brickMeta levelArray bi0 sub lod1 c1 s1 hb).1.LOD <
      cfg.LEVEL_COUNT := by
  by_cases hE : s1 ≤ BI_EMPTY
  · have hlt := emptyAscend_lt brickMeta levelArray p cfg.LEVEL_COUNT
      (cfg.LEVEL_COUNT - (lod1 + 1)) (lod1 + 1) (c1, s1, lod1) h (by omega)
    simpa [finishBrick, hE] using hlt
  · simpa [finishBrick, hE] using h

/-- Evaluation of getBrick on the cache-miss branch, given the outcome of the
miss-ascension loop. -/
theorem getBrick_miss_eq (cfg : ShaderConfig) (p0 : Vec3) (iLOD : Nat)
    (dir : Vec3) (cb : BrickCorners) (brickMeta : Nat → Nat)
    (levelArray : Nat → LevelData) (hb : List Nat) (mP fuel : Nat)
    (hmiss : brickMeta (getBrickIndex
      (computeBrickCoords (clampVec3 p0 0 1) levelArray iLOD) levelArray) = BI_MISSING)
    {L : Nat} {c : Uint4} {i s last : Nat}
    (hasc : ascendMissing brickMeta levelArray (clampVec3 p0 0 1) fuel iLOD
      (getBrickIndex (computeBrickCoords (clampVec3 p0 0 1) levelArray iLOD) levelArray) =
      some (L, c, i, s, last)) :
    getBrick cfg p0 iLOD dir cb brickMeta levelArray hb mP false fuel =
      some (finishBrick cfg (clampVec3 p0 0 1) dir cb brickMeta levelArray
        (getBrickIndex (computeBrickCoords (clampVec3 p0 0 1) levelArray iLOD) levelArray)
        (decide (brickMeta (getBrickIndex
          (computeBrickCoords (clampVec3 p0 0 1) levelArray iLOD) levelArray) = BI_MISSING))
        L c s
        (if cfg.REQUEST_LOWRES_LOD = true ∧ iLOD < L then
          reportMissingBrick mP last (reportMissingBrick mP
            (getBrickIndex (computeBrickCoords (clampVec3 p0 0 1) levelArray iLOD) levelArray) hb)
        else
          reportMissingBrick mP
            (getBrickIndex (computeBrickCoords (clampVec3 p0 0 1) levelArray iLOD) levelArray) hb)) := by
  simp only [getBrick]
  rw [if_pos ⟨trivial, hmiss⟩, hasc]

/-- Evaluation of getBrick when the cache-miss branch is not taken. -/
theorem getBrick_nomiss_eq (cfg : ShaderConfig) (p0 : Vec3) (iLOD : Nat)
    (dir : Vec3) (cb : BrickCorners) (brickMeta : Nat → Nat)
    (levelArray : Nat → LevelData) (hb : List Nat) (mP : Nat) (dr : Bool) (fuel : Nat)
    (hcond : ¬(dr = false ∧ brickMeta (getBrickIndex
      (computeBrickCoords (clampVec3 p0 0 1) levelArray iLOD) levelArray) = BI_MISSING)) :
    getBrick cfg p0 iLOD dir cb brickMeta levelArray hb mP dr fuel =
      some (finishBrick cfg (clampVec3 p0 0 1) dir cb brickMeta levelArray
        (getBrickIndex (computeBrickCoords (clampVec3 p0 0 1) levelArray iLOD) levelArray)
        (decide (brickMeta (getBrickIndex
          (computeBrickCoords (clampVec3 p0 0 1) levelArray iLOD) levelArray) = BI_MISSING))
        iLOD (computeBrickCoords (clampVec3 p0 0 1) levelArray iLOD)
        (brickMeta (getBrickIndex
          (computeBrickCoords (clampVec3 p0 0 1) levelArray iLOD) levelArray)) hb) := by
  simp only [getBrick]
  rw [if_neg hcond]

/-- C4: during empty-space ascension in getBrick, a coarser brick is adopted
only when its metadata is exactly BI_CHILD_EMPTY, and the ascension stops at
the first coarser LOD whose metadata is not BI_CHILD_EMPTY: every level
strictly between the starting level and the returned LOD inclusive is
BI_CHILD_EMPTY, and the level just above the returned LOD, when one exists
below LEVEL_COUNT, is not. -/
theorem emptyAscension_adopts_only_child_empty (brickMeta : Nat → Nat)
    (levelArray : Nat → LevelData) (p : Vec3) (LC startLOD : Nat)
    (c0 : Uint4) (s0 : Nat) (R : Nat)
    (hR : R = (emptyAscend brickMeta levelArray p (LC - (startLOD + 1))
      (startLOD + 1) (c0, s0, startLOD)).2.2) :
    startLOD ≤ R ∧
    (∀ m, startLOD < m → m ≤ R →
      residencyAt brickMeta levelArray p m = BI_CHILD_EMPTY) ∧
    (R + 1 < LC → residencyAt brickMeta levelArray p (R + 1) ≠ BI_CHILD_EMPTY) := by
  subst hR
  obtain ⟨h1, h2, h3⟩ := emptyAscend_spec brickMeta levelArray p
    (LC - (startLOD + 1)) (startLOD + 1) c0 s0 startLOD rfl
  refine ⟨h1, h2, fun hlt => h3 ?_⟩
  omega

unseal Rat.mul Rat.add Rat.sub Rat.inv Rat.ofScientific in
theorem emptyAscension_adopts_only_child_empty_witness :
    (1 : Nat) = (emptyAscend (fun n => if n = 1 then BI_CHILD_EMPTY else BI_EMPTY)
      (fun L => ⟨1, 1, L, ⟨1, 1, 1⟩⟩) ⟨0, 0, 0⟩ (3 - (0 + 1)) (0 + 1)
      (⟨0, 0, 0, 0⟩, BI_EMPTY, 0)).2.2 ∧
    (0 ≤ 1 ∧
     (∀ m, 0 < m → m ≤ 1 →
       residencyAt (fun n => if n = 1 then BI_CHILD_EMPTY else BI_EMPTY)
         (fun L => ⟨1, 1, L, ⟨1, 1, 1⟩⟩) ⟨0, 0, 0⟩ m = BI_CHILD_EMPTY) ∧
     (1 + 1 < 3 →
       residencyAt (fun n => if n = 1 then BI_CHILD_EMPTY else BI_EMPTY)
         (fun L => ⟨1, 1, L, ⟨1, 1, 1⟩⟩) ⟨0, 0, 0⟩ (1 + 1) ≠ BI_CHILD_EMPTY)) :=
  ⟨by decide,
    emptyAscension_adopts_only_child_empty
      (fun n => if n = 1 then BI_CHILD_EMPTY else BI_EMPTY)
      (fun L => ⟨1, 1, L, ⟨1, 1, 1⟩⟩) ⟨0, 0, 0⟩ 3 0 ⟨0, 0, 0, 0⟩ BI_EMPTY 1 (by decide)⟩

/-- C3 (amended): for every getBrick call that returns a result, the returned
substitute flag is true exactly when the metadata of the brick containing the
clamped entry position at the requested LOD is BI_MISSING, regardless of which
brick and LOD are ultimately returned. The original claim, that the flag is
true for every state providing no pool slot (also BI_CHILD_EMPTY and
BI_EMPTY), is refuted by substitute_false_for_empty_brick_cex. -/
theorem getBrick_substitute_iff_missing (cfg : ShaderConfig) (p0 : Vec3)
    (iLOD : Nat) (dir : Vec3) (cb : BrickCorners) (brickMeta : Nat → Nat)
    (levelArray : Nat → LevelData) (hb : List Nat) (mP : Nat) (dr : Bool)
    (fuel : Nat) :
    Option.all (fun r => r.1.substitute ==
        decide (residencyAt brickMeta levelArray (clampVec3 p0 0 1) iLOD = BI_MISSING))
      (getBrick cfg p0 iLOD dir cb brickMeta levelArray hb mP dr fuel) = true := by
  by_cases hcond : dr = false ∧ brickMeta (getBrickIndex
      (computeBrickCoords (clampVec3 p0 0 1) levelArray iLOD) levelArray) = BI_MISSING
  · obtain ⟨hdr, hmiss⟩ := hcond
    subst hdr
    rcases hascOpt : ascendMissing brickMeta levelArray (clampVec3 p0 0 1) fuel iLOD
        (getBrickIndex (computeBrickCoords (clampVec3 p0 0 1) levelArray iLOD) levelArray)
      with _ | ⟨L, c, i, s, last⟩
    · have hnone : getBrick cfg p0 iLOD dir cb brickMeta levelArray hb mP false fuel = none := by
        simp only [getBrick]
        rw [if_pos ⟨trivial, hmiss⟩, hascOpt]
      rw [hnone]
      rfl
    · rw [getBrick_miss_eq cfg p0 iLOD dir cb brickMeta levelArray hb mP fuel hmiss hascOpt]
      simp only [Option.all, finishBrick_substitute, residencyAt, beq_self_eq_true]
  · rw [getBrick_nomiss_eq cfg p0 iLOD dir cb brickMeta levelArray hb mP dr fuel hcond]
    simp only [Option.all, finishBrick_substitute, residencyAt, beq_self_eq_true]

unseal Rat.mul Rat.add Rat.sub Rat.inv Rat.ofScientific in
/-- C3 counterexample: a brick whose residency state is BI_EMPTY provides no
pool slot, yet getBrick returns substitute = false for it, because the source
sets the flag by comparing against BI_MISSING only. -/
theorem substitute_false_for_empty_brick_cex :
    Option.map (fun r : BrickInformation × List Nat => r.1.substitute)
      (getBrick ⟨2, ⟨1, 1, 1⟩, 1, ⟨1, 1, 1⟩, ⟨0, 0, 0⟩, true⟩ ⟨0, 0, 0⟩ 0 ⟨1, 1, 1⟩
        ⟨⟨0, 0, 0⟩, ⟨1, 1, 1⟩⟩ (fun _ => BI_EMPTY) (fun _ => ⟨1, 1, 0, ⟨1, 1, 1⟩⟩)
        [] 1 false 0) = some false ∧
    residencyAt (fun _ => BI_EMPTY) (fun _ => ⟨1, 1, 0, ⟨1, 1, 1⟩⟩)
      (clampVec3 ⟨0, 0, 0⟩ 0 1) 0 = BI_EMPTY := by
  decide

/-- C9: when dontRequest is true and the brick at the requested LOD is
missing, getBrick does not touch the miss-report buffer and performs no
miss-driven LOD ascension; the missing brick falls into the emptiness test, so
the result is empty, flagged substitute, and carries no pool transform. -/
theorem getBrick_dontRequest_missing_skips (cfg : ShaderConfig) (p0 : Vec3)
    (iLOD : Nat) (dir : Vec3) (cb : BrickCorners) (brickMeta : Nat → Nat)
    (levelArray : Nat → LevelData) (hb : List Nat) (mP fuel : Nat)
    (hmiss : residencyAt brickMeta levelArray (clampVec3 p0 0 1) iLOD = BI_MISSING) :
    ∃ r, getBrick cfg p0 iLOD dir cb brickMeta levelArray hb mP true fuel = some r ∧
      r.2 = hb ∧ r.1.empty = true ∧ r.1.substitute = true ∧
      r.1.poolBrickInfo = none := by
  have hmiss2 : brickMeta (getBrickIndex
      (computeBrickCoords (clampVec3 p0 0 1) levelArray iLOD) levelArray) = BI_MISSING := hmiss
  have hval := getBrick_nomiss_eq cfg p0 iLOD dir cb brickMeta levelArray hb mP true fuel
    (by simp)
  refine ⟨_, hval, ?_, ?_, ?_, ?_⟩
  · exact finishBrick_snd _ _ _ _ _ _ _ _ _ _ _ _
  · exact (finishBrick_empty_case _ _ _ _ _ _ _ _ _ _ _ _ (by rw [hmiss2]; decide)).1
  · rw [finishBrick_substitute, hmiss2]
    decide
  · exact (finishBrick_empty_case _ _ _ _ _ _ _ _ _ _ _ _ (by rw [hmiss2]; decide)).2

unseal Rat.mul Rat.add Rat.sub Rat.inv Rat.ofScientific in
theorem getBrick_dontRequest_missing_skips_witness :
    residencyAt (fun _ => BI_MISSING) (fun _ => ⟨1, 1, 0, ⟨1, 1, 1⟩⟩)
      (clampVec3 ⟨0, 0, 0⟩ 0 1) 0 = BI_MISSING ∧
    ∃ r, getBrick ⟨2, ⟨1, 1, 1⟩, 1, ⟨1, 1, 1⟩, ⟨0, 0, 0⟩, true⟩ ⟨0, 0, 0⟩ 0 ⟨1, 1, 1⟩
        ⟨⟨0, 0, 0⟩, ⟨1, 1, 1⟩⟩ (fun _ => BI_MISSING) (fun _ => ⟨1, 1, 0, ⟨1, 1, 1⟩⟩)
        [EMPTY_SLOT] 1 true 0 = some r ∧
      r.2 = [EMPTY_SLOT] ∧ r.1.empty = true ∧ r.1.substitute = true ∧
      r.1.poolBrickInfo = none :=
  ⟨by decide,
    getBrick_dontRequest_missing_skips ⟨2, ⟨1, 1, 1⟩, 1, ⟨1, 1, 1⟩, ⟨0, 0, 0⟩, true⟩
      ⟨0, 0, 0⟩ 0 ⟨1, 1, 1⟩ ⟨⟨0, 0, 0⟩, ⟨1, 1, 1⟩⟩ (fun _ => BI_MISSING)
      (fun _ => ⟨1, 1, 0, ⟨1, 1, 1⟩⟩) [EMPTY_SLOT] 1 0 (by decide)⟩

/-- C1: if the brick containing the clamped entry position at the requested
LOD is missing, miss reporting is allowed, and the brick at the coarsest level
LEVEL_COUNT - 1 is not missing, then getBrick terminates within
LEVEL_COUNT - requestedLOD - 1 iterations of the miss-ascension loop (that
much fuel suffices) and returns a result whose LOD is at most the coarsest
level and whose substitute flag is true. -/
theorem getBrick_missing_ascends_and_terminates (cfg : ShaderConfig) (p0 : Vec3)
    (iLOD : Nat) (dir : Vec3) (cb : BrickCorners) (brickMeta : Nat → Nat)
    (levelArray : Nat → LevelData) (hb : List Nat) (mP : Nat)
    (hLOD : iLOD < cfg.LEVEL_COUNT)
    (hmiss : residencyAt brickMeta levelArray (clampVec3 p0 0 1) iLOD = BI_MISSING)
    (hcoarse : residencyAt brickMeta levelArray (clampVec3 p0 0 1)
      (cfg.LEVEL_COUNT - 1) ≠ BI_MISSING) :
    ∃ r, getBrick cfg p0 iLOD dir cb brickMeta levelArray hb mP false
        (cfg.LEVEL_COUNT - iLOD - 1) = some r ∧
      r.1.LOD ≤ cfg.LEVEL_COUNT - 1 ∧ r.1.substitute = true := by
  have hmiss2 : brickMeta (getBrickIndex
      (computeBrickCoords (clampVec3 p0 0 1) levelArray iLOD) levelArray) = BI_MISSING := hmiss
  by_cases heq : iLOD = cfg.LEVEL_COUNT - 1
  · rw [heq] at hmiss
    exact absurd hmiss hcoarse
  · have hlt : iLOD < cfg.LEVEL_COUNT - 1 := by omega
    obtain ⟨L, c, i, s, last, hasc, hL, hsres, hsnm⟩ :=
      ascendMissing_finds brickMeta levelArray (clampVec3 p0 0 1)
        (cfg.LEVEL_COUNT - iLOD - 1) iLOD
        (getBrickIndex (computeBrickCoords (clampVec3 p0 0 1) levelArray iLOD) levelArray)
        (cfg.LEVEL_COUNT - 1) hlt (by omega) hcoarse
    have hval := getBrick_miss_eq cfg p0 iLOD dir cb brickMeta levelArray hb mP
      (cfg.LEVEL_COUNT - iLOD - 1) hmiss2 hasc
    refine ⟨_, hval, ?_, ?_⟩
    · exact Nat.le_sub_one_of_lt
        (finishBrick_LOD_lt _ _ _ _ _ _ _ _ _ _ _ _ (by omega))
    · rw [finishBrick_substitute, hmiss2]
      decide

unseal Rat.mul Rat.add Rat.sub Rat.inv Rat.ofScientific in
theorem getBrick_missing_ascends_and_terminates_witness :
    0 < 2 ∧
    residencyAt (fun n => if n = 0 then BI_MISSING else 5)
      (fun L => ⟨1, 1, L, ⟨1, 1, 1⟩⟩) (clampVec3 ⟨0, 0, 0⟩ 0 1) 0 = BI_MISSING ∧
    residencyAt (fun n => if n = 0 then BI_MISSING else 5)
      (fun L => ⟨1, 1, L, ⟨1, 1, 1⟩⟩) (clampVec3 ⟨0, 0, 0⟩ 0 1) (2 - 1) ≠ BI_MISSING ∧
    ∃ r, getBrick ⟨2, ⟨1, 1, 1⟩, 1, ⟨1, 1, 1⟩, ⟨0, 0, 0⟩, true⟩ ⟨0, 0, 0⟩ 0 ⟨1, 1, 1⟩
        ⟨⟨0, 0, 0⟩, ⟨1, 1, 1⟩⟩ (fun n => if n = 0 then BI_MISSING else 5)
        (fun L => ⟨1, 1, L, ⟨1, 1, 1⟩⟩) [EMPTY_SLOT, EMPTY_SLOT] 1 false (2 - 0 - 1) = some r ∧
      r.1.LOD ≤ 2 - 1 ∧ r.1.substitute = true :=
  ⟨by decide, by decide, by decide,
    getBrick_missing_ascends_and_terminates ⟨2, ⟨1, 1, 1⟩, 1, ⟨1, 1, 1⟩, ⟨0, 0, 0⟩, true⟩
      ⟨0, 0, 0⟩ 0 ⟨1, 1, 1⟩ ⟨⟨0, 0, 0⟩, ⟨1, 1, 1⟩⟩
      (fun n => if n = 0 then BI_MISSING else 5) (fun L => ⟨1, 1, L, ⟨1, 1, 1⟩⟩)
      [EMPTY_SLOT, EMPTY_SLOT] 1 (by decide) (by decide) (by decide)⟩
